import Mathlib

/-!
Verification of the pool-usage summary report aggregation
(`uds/reports/stats/pools_usage_summary.py`).

The aggregation pass `PoolsUsageSummary.processed_data` groups usage records
by pool id into a Python dict (insertion ordered), accumulating per-pool
time, access count and a set of user names, together with global totals;
the per-pool user sets are collapsed to their cardinality before returning.
Two renderers consume the result: a PDF renderer that formats times as
`datetime.timedelta` strings, and a CSV renderer that writes raw integers.

The embedding below models the dict as an insertion-ordered association
list, Python sets of strings as `Finset String`, and non-negative integer
seconds as `Nat` (Python `//` on non-negative integers is `Nat` division).
-/

namespace PoolsUsage

/-- A usage record as supplied by the upstream data collaborator
(`UsageByPool.get_data`): `pool` is the pool id, `pool_name` the display
name, `name` the user name, `time` the connected seconds (non-negative). -/
structure Record where
  pool : String
  pool_name : String
  name : String
  time : Nat
deriving DecidableEq, Repr

/-- The per-pool accumulator dict value built by the loop in
`processed_data`: `{'name': ..., 'time': ..., 'count': ..., 'users': ...}`
while `users` is still a set. -/
structure PoolAcc where
  name : String
  time : Nat
  count : Nat
  users : Finset String
deriving DecidableEq

/-- The `pools` dict of `processed_data`, modelled as an insertion-ordered
association list from pool id to accumulator (Python dicts preserve
insertion order). -/
abbrev Pools := List (String × PoolAcc)

/-- Dict lookup `pools[uuid]` as an option (first entry with the key). -/
def lookupPool : Pools → String → Option PoolAcc
  | [], _ => none
  | (k, p) :: rest, pid => if k = pid then some p else lookupPool rest pid

/-- Dict membership test `uuid in pools`. -/
def containsKey : Pools → String → Bool
  | [], _ => false
  | (k, _) :: rest, pid => k = pid || containsKey rest pid

/-- The fresh accumulator created on first sight of a pool id:
`{'name': v['pool_name'], 'time': 0, 'count': 0, 'users': set()}`. -/
def zeroPool (v : Record) : PoolAcc :=
  { name := v.pool_name, time := 0, count := 0, users := ∅ }

/-- The body `if uuid not in pools: pools[uuid] = {...}`: append a fresh
entry at the end (dict insertion order) when the key is absent. -/
def ensurePool (pools : Pools) (v : Record) : Pools :=
  if containsKey pools v.pool then pools else pools ++ [(v.pool, zeroPool v)]

/-- The in-place update applied to the entry at `v.pool`: add `v.time` to
`time`, increment `count`, and add `v.name` to the user set. -/
def bumpPool (p : PoolAcc) (v : Record) : PoolAcc :=
  { name := p.name, time := p.time + v.time, count := p.count + 1,
    users := insert v.name p.users }

/-- Apply `bumpPool` to the (first) entry with key `v.pool`, leaving all
other entries unchanged. -/
def updatePool : Pools → Record → Pools
  | [], _ => []
  | (k, p) :: rest, v =>
    if k = v.pool then (k, bumpPool p v) :: rest
    else (k, p) :: updatePool rest v

/-- One loop iteration of `processed_data` on the `pools` dict: create the
entry if absent, then accumulate the record into it. -/
def addRecord (pools : Pools) (v : Record) : Pools :=
  updatePool (ensurePool pools v) v

/-- The whole mutable state of the loop in `processed_data`: the `pools`
dict plus the global accumulators `total_time`, `total_count` and the
global `unique_users` set. -/
structure AggState where
  pools : Pools
  total_time : Nat
  total_count : Nat
  unique_users : Finset String
deriving DecidableEq

/-- One full loop iteration: update the pool entry and the globals. -/
def stepAgg (s : AggState) (v : Record) : AggState :=
  { pools := addRecord s.pools v,
    total_time := s.total_time + v.time,
    total_count := s.total_count + 1,
    unique_users := insert v.name s.unique_users }

/-- The state before the loop: empty dict, zero totals, empty user set. -/
def initState : AggState :=
  { pools := [], total_time := 0, total_count := 0, unique_users := ∅ }

/-- The complete aggregation loop of `processed_data` over the input rows. -/
def aggregate (orig : List Record) : AggState :=
  orig.foldl stepAgg initState

/-- A finalized per-pool aggregate as returned by `processed_data` after
`pn['users'] = len(pn['users'])` collapsed the user set to its count. -/
structure PoolOut where
  name : String
  time : Nat
  count : Nat
  users : Nat
deriving DecidableEq, Repr

/-- Collapse a pool accumulator's user set to its cardinality. -/
def finalizePool (p : PoolAcc) : PoolOut :=
  { name := p.name, time := p.time, count := p.count, users := p.users.card }

/-- The 4-tuple returned by `processed_data`: `pools.values()`, the global
`total_time`, `total_count or 1`, and `len(unique_users)`. -/
structure Processed where
  pools : List PoolOut
  total_time : Nat
  total_count : Nat
  unique_users : Nat
deriving DecidableEq, Repr

/-- The function `PoolsUsageSummary.processed_data`, applied to the record
sequence supplied by `get_data`. -/
def processed_data (orig : List Record) : Processed :=
  let s := aggregate orig
  { pools := s.pools.map (fun kp => finalizePool kp.2),
    total_time := s.total_time,
    total_count := if s.total_count = 0 then 1 else s.total_count,
    unique_users := s.unique_users.card }

/-- A `datetime.timedelta` value built from whole seconds, normalized into
days plus a remainder of seconds below one day. -/
structure Timedelta where
  days : Nat
  seconds : Nat
deriving DecidableEq, Repr

/-- The constructor call `datetime.timedelta(seconds=n)`. -/
def Timedelta.ofSeconds (n : Nat) : Timedelta :=
  { days := n / 86400, seconds := n % 86400 }

/-- The whole number of seconds a timedelta represents
(`timedelta.total_seconds()` restricted to whole seconds). -/
def Timedelta.totalSeconds (t : Timedelta) : Nat :=
  t.days * 86400 + t.seconds

/-- Zero-padded two-digit rendering of minutes and seconds fields. -/
def pad2 (n : Nat) : String :=
  if n < 10 then "0" ++ toString n else toString n

/-- The rendering `str(datetime.timedelta(...))`: `H:MM:SS`, preceded by
a day count when at least one full day is present. -/
def Timedelta.render (t : Timedelta) : String :=
  let h := t.seconds / 3600
  let m := t.seconds % 3600 / 60
  let s := t.seconds % 60
  let base := toString h ++ ":" ++ pad2 m ++ ":" ++ pad2 s
  if t.days = 0 then base
  else
    toString t.days ++ (if t.days = 1 then " day, " else " days, ") ++ base

/-- One per-pool row of the dict handed to the PDF template by
`PoolsUsageSummary.generate`: name, formatted time, count, users, and the
formatted mean `str(timedelta(seconds=p['time'] // int(p['count'])))`. -/
structure PdfRow where
  name : String
  time : String
  count : Nat
  users : Nat
  mean : String
deriving DecidableEq, Repr

/-- Build one PDF data row from a finalized pool aggregate. -/
def pdfRowOf (p : PoolOut) : PdfRow :=
  { name := p.name,
    time := (Timedelta.ofSeconds p.time).render,
    count := p.count,
    users := p.users,
    mean := (Timedelta.ofSeconds (p.time / p.count)).render }

/-- The whole data dict handed to the PDF template (date-range strings and
caption strings are external and omitted). -/
structure PdfPayload where
  data : List PdfRow
  time : String
  count : Nat
  users : Nat
  mean : String
deriving DecidableEq, Repr

/-- The payload computation of `PoolsUsageSummary.generate`. -/
def pdfPayload (orig : List Record) : PdfPayload :=
  let r := processed_data orig
  { data := r.pools.map pdfRowOf,
    time := (Timedelta.ofSeconds r.total_time).render,
    count := r.total_count,
    users := r.unique_users,
    mean := (Timedelta.ofSeconds (r.total_time / r.total_count)).render }

/-- The Python list written per pool by `PoolsUsageSummaryCSV.generate`:
`[v['name'], v['time'], v['count'], v['users'], v['time'] // v['count']]`. -/
structure CsvRow where
  name : String
  time : Nat
  count : Nat
  users : Nat
  mean : Nat
deriving DecidableEq, Repr

/-- Build one CSV data row from a finalized pool aggregate. -/
def csvRowOf (v : PoolOut) : CsvRow :=
  { name := v.name, time := v.time, count := v.count, users := v.users,
    mean := v.time / v.count }

/-- Serialize one CSV row to its cells, as the csv writer stringifies the
Python integers. -/
def csvCells (r : CsvRow) : List String :=
  [r.name, toString r.time, toString r.count, toString r.users,
   toString r.mean]

/-- The fixed caption header row of the CSV report. -/
def csvHeader : List String :=
  ["Pool", "Total Time (seconds)", "Total Accesses", "Unique users",
   "Mean time (seconds)"]

/-- The trailing totals row of the CSV report, using the same global
summary values as the PDF renderer. -/
def csvTotals (r : Processed) : CsvRow :=
  { name := "Total", time := r.total_time, count := r.total_count,
    users := r.unique_users, mean := r.total_time / r.total_count }

/-- The rows written by `PoolsUsageSummaryCSV.generate`: the header, one
row per pool aggregate in dict order, then the totals row. -/
def csvGenerate (orig : List Record) : List (List String) :=
  let r := processed_data orig
  csvHeader ::
    (r.pools.map (fun v => csvCells (csvRowOf v)) ++ [csvCells (csvTotals r)])

/-- The pool ids of the dict, in insertion order. -/
def poolKeys (pools : Pools) : List String :=
  pools.map (fun kp => kp.1)

/-- Modelled from the spec's ordering guarantee, for comparison with the
code: the distinct pool ids of the input in first-seen order ("first
pool_id encountered, first returned"). -/
def firstSeenKeys (orig : List Record) : List String :=
  orig.foldl (fun acc v => if v.pool ∈ acc then acc else acc ++ [v.pool]) []

/-- Modelled from the spec's wording for the first-seen name rule, for
comparison with the code: the `pool_name` of the first record in input
order bearing the given pool id. -/
def firstName : List Record → String → Option String
  | [], _ => none
  | v :: rest, pid =>
    if v.pool = pid then some v.pool_name else firstName rest pid

/-- The three-record example input of the specification. -/
def exampleRecords : List Record :=
  [{ pool := "A", pool_name := "Pool A", name := "u1", time := 100 },
   { pool := "A", pool_name := "Pool A", name := "u2", time := 50 },
   { pool := "B", pool_name := "Pool B", name := "u1", time := 30 }]

/-! ### Basic dict lemmas -/

theorem lookupPool_eq_none (pools : Pools) (pid : String) :
    lookupPool pools pid = none ↔ containsKey pools pid = false := by
  induction pools with
  | nil => simp [lookupPool, containsKey]
  | cons kq rest ih =>
    obtain ⟨k, q⟩ := kq
    by_cases h : k = pid <;> simp [lookupPool, containsKey, h, ih]

theorem lookupPool_append_single (pools : Pools) (k : String) (p : PoolAcc)
    (pid : String) :
    lookupPool (pools ++ [(k, p)]) pid =
      match lookupPool pools pid with
      | some q => some q
      | none => if k = pid then some p else none := by
  induction pools with
  | nil => simp [lookupPool]
  | cons kq rest ih =>
    obtain ⟨k2, q⟩ := kq
    by_cases h : k2 = pid <;> simp [lookupPool, h, ih]

theorem lookupPool_updatePool (pools : Pools) (v : Record) (pid : String) :
    lookupPool (updatePool pools v) pid =
      if pid = v.pool then (lookupPool pools pid).map (fun p => bumpPool p v)
      else lookupPool pools pid := by
  induction pools with
  | nil => by_cases hp : pid = v.pool <;> simp [updatePool, lookupPool, hp]
  | cons kq rest ih =>
    obtain ⟨k, q⟩ := kq
    by_cases hk : k = v.pool
    · by_cases hp : pid = v.pool
      · simp [updatePool, lookupPool, hk, hp, hk.trans hp.symm]
      · have h1 : ¬ k = pid := fun he => hp (he ▸ hk)
        have h2 : ¬ v.pool = pid := fun he => hp he.symm
        simp [updatePool, lookupPool, hk, hp, h1, h2]
    · by_cases hq : k = pid
      · have : ¬ pid = v.pool := fun he => hk (hq.trans he)
        simp [updatePool, lookupPool, hk, hq, this]
      · simp [updatePool, lookupPool, hk, hq, ih]

theorem containsKey_append_single (pools : Pools) (k : String) (p : PoolAcc) :
    containsKey (pools ++ [(k, p)]) k = true := by
  induction pools with
  | nil => simp [containsKey]
  | cons kq rest ih =>
    obtain ⟨k2, q⟩ := kq
    simp [containsKey, ih]

theorem containsKey_ensurePool (pools : Pools) (v : Record) :
    containsKey (ensurePool pools v) v.pool = true := by
  unfold ensurePool
  by_cases hc : containsKey pools v.pool
  · rwa [if_pos hc]
  · rw [if_neg hc]
    exact containsKey_append_single pools v.pool (zeroPool v)

theorem lookupPool_addRecord (pools : Pools) (v : Record) (pid : String) :
    lookupPool (addRecord pools v) pid =
      if pid = v.pool then
        some (bumpPool ((lookupPool pools v.pool).getD (zeroPool v)) v)
      else lookupPool pools pid := by
  unfold addRecord ensurePool
  by_cases hc : containsKey pools v.pool
  · rw [if_pos hc, lookupPool_updatePool]
    by_cases hp : pid = v.pool
    · rw [if_pos hp, if_pos hp, hp]
      cases hq : lookupPool pools v.pool with
      | none => exact absurd ((lookupPool_eq_none _ _).1 hq) (by simp [hc])
      | some q => simp
    · rw [if_neg hp, if_neg hp]
  · rw [if_neg hc, lookupPool_updatePool]
    have hn : lookupPool pools v.pool = none :=
      (lookupPool_eq_none _ _).2 (Bool.not_eq_true _ ▸ hc)
    by_cases hp : pid = v.pool
    · rw [if_pos hp, if_pos hp, hp, lookupPool_append_single, hn]
      simp
    · rw [if_neg hp, if_neg hp, lookupPool_append_single]
      cases hq : lookupPool pools pid with
      | none =>
        simp only [hq]
        exact if_neg (fun he => hp he.symm)
      | some q => simp [hq]

theorem updatePool_append (pools : Pools) (v : Record) (p : PoolAcc)
    (h : containsKey pools v.pool = false) :
    updatePool (pools ++ [(v.pool, p)]) v =
      pools ++ [(v.pool, bumpPool p v)] := by
  induction pools with
  | nil => simp [updatePool]
  | cons kq rest ih =>
    obtain ⟨k, q⟩ := kq
    simp only [containsKey, Bool.or_eq_false_iff, decide_eq_false_iff_not] at h
    simp [updatePool, h.1, ih h.2]

theorem updatePool_mem (pools : Pools) (v : Record) (kp : String × PoolAcc)
    (h : kp ∈ updatePool pools v) :
    kp ∈ pools ∨ ∃ q, (kp.1, q) ∈ pools ∧ kp.2 = bumpPool q v := by
  induction pools with
  | nil => simp [updatePool] at h
  | cons kq rest ih =>
    obtain ⟨k, q⟩ := kq
    by_cases hk : k = v.pool
    · rw [updatePool, if_pos hk] at h
      rcases List.mem_cons.1 h with h1 | h2
      · exact Or.inr ⟨q, by simp [h1], by simp [h1]⟩
      · exact Or.inl (List.mem_cons_of_mem _ h2)
    · rw [updatePool, if_neg hk] at h
      rcases List.mem_cons.1 h with h1 | h2
      · exact Or.inl (h1 ▸ List.mem_cons_self _ _)
      · rcases ih h2 with h3 | ⟨q2, hq2, he⟩
        · exact Or.inl (List.mem_cons_of_mem _ h3)
        · exact Or.inr ⟨q2, List.mem_cons_of_mem _ hq2, he⟩

theorem addRecord_mem (pools : Pools) (v : Record) (kp : String × PoolAcc)
    (h : kp ∈ addRecord pools v) :
    kp ∈ pools ∨ (∃ q, (kp.1, q) ∈ pools ∧ kp.2 = bumpPool q v) ∨
      kp = (v.pool, bumpPool (zeroPool v) v) := by
  unfold addRecord ensurePool at h
  by_cases hc : containsKey pools v.pool
  · rw [if_pos hc] at h
    rcases updatePool_mem _ _ _ h with h1 | h2
    · exact Or.inl h1
    · exact Or.inr (Or.inl h2)
  · rw [if_neg hc, updatePool_append _ _ _ (Bool.not_eq_true _ ▸ hc)] at h
    rcases List.mem_append.1 h with h1 | h2
    · exact Or.inl h1
    · exact Or.inr (Or.inr (by simpa using h2))

/-! ### Global accumulator lemmas -/

theorem foldl_total_time (orig : List Record) (s : AggState) :
    (orig.foldl stepAgg s).total_time =
      s.total_time + (orig.map Record.time).sum := by
  induction orig generalizing s with
  | nil => simp
  | cons v rest ih =>
    rw [List.foldl_cons, ih]
    simp [stepAgg]
    omega

theorem foldl_total_count (orig : List Record) (s : AggState) :
    (orig.foldl stepAgg s).total_count = s.total_count + orig.length := by
  induction orig generalizing s with
  | nil => simp
  | cons v rest ih =>
    rw [List.foldl_cons, ih]
    simp [stepAgg]
    omega

theorem foldl_unique_users (orig : List Record) (s : AggState) :
    (orig.foldl stepAgg s).unique_users =
      s.unique_users ∪ (orig.map Record.name).toFinset := by
  induction orig generalizing s with
  | nil => simp
  | cons v rest ih =>
    rw [List.foldl_cons, ih]
    simp [stepAgg, Finset.insert_union, Finset.union_insert]

theorem foldl_unique_le (orig : List Record) (s : AggState)
    (h : s.unique_users.card ≤ s.total_count) :
    (orig.foldl stepAgg s).unique_users.card ≤
      (orig.foldl stepAgg s).total_count := by
  induction orig generalizing s with
  | nil => exact h
  | cons v rest ih =>
    rw [List.foldl_cons]
    apply ih
    have hle := Finset.card_insert_le v.name s.unique_users
    simp only [stepAgg]
    omega

/-! ### Keys and insertion order -/

theorem poolKeys_updatePool (pools : Pools) (v : Record) :
    poolKeys (updatePool pools v) = poolKeys pools := by
  induction pools with
  | nil => rfl
  | cons kq rest ih =>
    obtain ⟨k, q⟩ := kq
    by_cases hk : k = v.pool
    · simp [updatePool, poolKeys, hk]
    · simp only [updatePool, if_neg hk, poolKeys, List.map_cons]
      simpa [poolKeys] using ih

theorem containsKey_iff_mem (pools : Pools) (pid : String) :
    containsKey pools pid = true ↔ pid ∈ poolKeys pools := by
  induction pools with
  | nil => simp [containsKey, poolKeys]
  | cons kq rest ih =>
    obtain ⟨k, q⟩ := kq
    simp only [containsKey, poolKeys, Bool.or_eq_true, decide_eq_true_eq,
      List.map_cons, List.mem_cons, ih]
    constructor
    · rintro (h | h)
      exacts [Or.inl h.symm, Or.inr h]
    · rintro (h | h)
      exacts [Or.inl h.symm, Or.inr h]

theorem poolKeys_addRecord (pools : Pools) (v : Record) :
    poolKeys (addRecord pools v) =
      if v.pool ∈ poolKeys pools then poolKeys pools
      else poolKeys pools ++ [v.pool] := by
  unfold addRecord ensurePool
  by_cases hc : containsKey pools v.pool
  · rw [if_pos hc, poolKeys_updatePool,
      if_pos ((containsKey_iff_mem _ _).1 hc)]
  · have hm : ¬ v.pool ∈ poolKeys pools :=
      fun h => hc ((containsKey_iff_mem _ _).2 h)
    rw [if_neg hc, poolKeys_updatePool, if_neg hm]
    simp [poolKeys]

theorem foldl_poolKeys (orig : List Record) (s : AggState) :
    poolKeys (orig.foldl stepAgg s).pools =
      orig.foldl (fun acc v => if v.pool ∈ acc then acc else acc ++ [v.pool])
        (poolKeys s.pools) := by
  induction orig generalizing s with
  | nil => rfl
  | cons v rest ih =>
    rw [List.foldl_cons, List.foldl_cons, ih]
    congr 1
    simpa [stepAgg] using poolKeys_addRecord s.pools v

/-! ### Per-pool sums -/

/-- The sum of the accumulated `time` fields over all dict entries. -/
def poolsTimeSum (pools : Pools) : Nat :=
  (pools.map (fun kp => kp.2.time)).sum

/-- The sum of the accumulated `count` fields over all dict entries. -/
def poolsCountSum (pools : Pools) : Nat :=
  (pools.map (fun kp => kp.2.count)).sum

theorem poolsTimeSum_updatePool (pools : Pools) (v : Record)
    (h : containsKey pools v.pool = true) :
    poolsTimeSum (updatePool pools v) = poolsTimeSum pools + v.time := by
  induction pools with
  | nil => simp [containsKey] at h
  | cons kq rest ih =>
    obtain ⟨k, q⟩ := kq
    by_cases hk : k = v.pool
    · simp [updatePool, hk, poolsTimeSum, bumpPool]
      omega
    · simp only [containsKey, Bool.or_eq_true, decide_eq_true_eq] at h
      rcases h with h1 | h2
      · exact absurd h1 hk
      · simp only [updatePool, if_neg hk, poolsTimeSum, List.map_cons,
          List.sum_cons] at ih ⊢
        rw [ih h2]
        omega

theorem poolsCountSum_updatePool (pools : Pools) (v : Record)
    (h : containsKey pools v.pool = true) :
    poolsCountSum (updatePool pools v) = poolsCountSum pools + 1 := by
  induction pools with
  | nil => simp [containsKey] at h
  | cons kq rest ih =>
    obtain ⟨k, q⟩ := kq
    by_cases hk : k = v.pool
    · simp [updatePool, hk, poolsCountSum, bumpPool]
      omega
    · simp only [containsKey, Bool.or_eq_true, decide_eq_true_eq] at h
      rcases h with h1 | h2
      · exact absurd h1 hk
      · simp only [updatePool, if_neg hk, poolsCountSum, List.map_cons,
          List.sum_cons] at ih ⊢
        rw [ih h2]
        omega

theorem poolsTimeSum_ensurePool (pools : Pools) (v : Record) :
    poolsTimeSum (ensurePool pools v) = poolsTimeSum pools := by
  unfold ensurePool
  by_cases hc : containsKey pools v.pool <;>
    simp [hc, poolsTimeSum, zeroPool]

theorem poolsCountSum_ensurePool (pools : Pools) (v : Record) :
    poolsCountSum (ensurePool pools v) = poolsCountSum pools := by
  unfold ensurePool
  by_cases hc : containsKey pools v.pool <;>
    simp [hc, poolsCountSum, zeroPool]

theorem poolsTimeSum_addRecord (pools : Pools) (v : Record) :
    poolsTimeSum (addRecord pools v) = poolsTimeSum pools + v.time := by
  unfold addRecord
  rw [poolsTimeSum_updatePool _ _ (containsKey_ensurePool pools v),
    poolsTimeSum_ensurePool]

theorem poolsCountSum_addRecord (pools : Pools) (v : Record) :
    poolsCountSum (addRecord pools v) = poolsCountSum pools + 1 := by
  unfold addRecord
  rw [poolsCountSum_updatePool _ _ (containsKey_ensurePool pools v),
    poolsCountSum_ensurePool]

theorem foldl_time_inv (orig : List Record) (s : AggState)
    (h : poolsTimeSum s.pools = s.total_time) :
    poolsTimeSum (orig.foldl stepAgg s).pools =
      (orig.foldl stepAgg s).total_time := by
  induction orig generalizing s with
  | nil => exact h
  | cons v rest ih =>
    rw [List.foldl_cons]
    exact ih _ (by simp [stepAgg, poolsTimeSum_addRecord, h])

theorem foldl_count_inv (orig : List Record) (s : AggState)
    (h : poolsCountSum s.pools = s.total_count) :
    poolsCountSum (orig.foldl stepAgg s).pools =
      (orig.foldl stepAgg s).total_count := by
  induction orig generalizing s with
  | nil => exact h
  | cons v rest ih =>
    rw [List.foldl_cons]
    exact ih _ (by simp [stepAgg, poolsCountSum_addRecord, h])

/-! ### Membership invariants over the whole loop -/

theorem foldl_pools_inv (P : String × PoolAcc → Prop)
    (hbump : ∀ (k : String) (q : PoolAcc) (v : Record),
      P (k, q) → P (k, bumpPool q v))
    (hnew : ∀ v : Record, P (v.pool, bumpPool (zeroPool v) v))
    (orig : List Record) (s : AggState)
    (hs : ∀ kp ∈ s.pools, P kp) :
    ∀ kp ∈ (orig.foldl stepAgg s).pools, P kp := by
  induction orig generalizing s with
  | nil => exact hs
  | cons v rest ih =>
    rw [List.foldl_cons]
    apply ih
    intro kp hkp
    have hkp' : kp ∈ addRecord s.pools v := hkp
    rcases addRecord_mem _ _ _ hkp' with h1 | ⟨q, hq, he⟩ | h3
    · exact hs _ h1
    · obtain ⟨k1, p1⟩ := kp
      simp only at he
      rw [he]
      exact hbump _ _ _ (hs _ hq)
    · rw [h3]
      exact hnew v

/-! ### First-seen names -/

theorem lookupName_foldl (orig : List Record) (s : AggState) (pid : String) :
    (lookupPool (orig.foldl stepAgg s).pools pid).map PoolAcc.name =
      match (lookupPool s.pools pid).map PoolAcc.name with
      | some n => some n
      | none => firstName orig pid := by
  induction orig generalizing s with
  | nil =>
    cases h : lookupPool s.pools pid <;> simp [h, firstName]
  | cons v rest ih =>
    rw [List.foldl_cons, ih]
    have hpools : (stepAgg s v).pools = addRecord s.pools v := rfl
    rw [hpools, lookupPool_addRecord]
    by_cases hp : pid = v.pool
    · subst hp
      rw [if_pos rfl]
      cases hq : lookupPool s.pools v.pool with
      | none => simp [hq, bumpPool, zeroPool, firstName]
      | some p => simp [hq, bumpPool]
    · have hvp : ¬ v.pool = pid := fun he => hp he.symm
      rw [if_neg hp]
      cases hq : lookupPool s.pools pid with
      | none => simp [hq, firstName, hvp]
      | some p => simp [hq]

/-! ### Per-pool statistics characterization -/

/-- The pure statistics of a pool accumulator: accumulated time, record
count, and user set (everything except the display name). -/
def poolStats (p : PoolAcc) : Nat × Nat × Finset String :=
  (p.time, p.count, p.users)

/-- Merge the statistics coming from a further batch of records for one
pool into an optional already-accumulated statistics triple. -/
def mergeStats (o : Option (Nat × Nat × Finset String)) (l : List Record) :
    Option (Nat × Nat × Finset String) :=
  match o, l with
  | some (t, c, u), l =>
      some (t + (l.map Record.time).sum, c + l.length,
        u ∪ (l.map Record.name).toFinset)
  | none, [] => none
  | none, v :: rest =>
      some (((v :: rest).map Record.time).sum, (v :: rest).length,
        ((v :: rest).map Record.name).toFinset)

theorem foldl_poolStats (orig : List Record) (s : AggState) (pid : String) :
    (lookupPool (orig.foldl stepAgg s).pools pid).map poolStats =
      mergeStats ((lookupPool s.pools pid).map poolStats)
        (orig.filter (fun v => decide (v.pool = pid))) := by
  induction orig generalizing s with
  | nil =>
    cases h : lookupPool s.pools pid with
    | none => simp [h, mergeStats]
    | some p => simp [h, mergeStats, poolStats]
  | cons v rest ih =>
    rw [List.foldl_cons, ih]
    have hpools : (stepAgg s v).pools = addRecord s.pools v := rfl
    rw [hpools, lookupPool_addRecord]
    by_cases hp : v.pool = pid
    · rw [if_pos hp.symm, List.filter_cons_of_pos (by simp [hp])]
      subst hp
      generalize rest.filter (fun w => decide (w.pool = v.pool)) = l
      cases hq : lookupPool s.pools v.pool with
      | none =>
        show some (0 + v.time + (l.map Record.time).sum,
            0 + 1 + l.length,
            insert v.name ∅ ∪ (l.map Record.name).toFinset) =
          some ((v.time :: l.map Record.time).sum, l.length + 1,
            (v.name :: l.map Record.name).toFinset)
        rw [List.sum_cons, List.toFinset_cons]
        have h1 : 0 + v.time + (l.map Record.time).sum =
            v.time + (l.map Record.time).sum := by omega
        have h2 : 0 + 1 + l.length = l.length + 1 := by omega
        have h3 : insert v.name ∅ ∪ (l.map Record.name).toFinset =
            insert v.name (l.map Record.name).toFinset := by
          rw [Finset.insert_union, Finset.empty_union]
        rw [h1, h2, h3]
      | some p =>
        show some (p.time + v.time + (l.map Record.time).sum,
            p.count + 1 + l.length,
            insert v.name p.users ∪ (l.map Record.name).toFinset) =
          some (p.time + (v.time :: l.map Record.time).sum,
            p.count + (l.length + 1),
            p.users ∪ (v.name :: l.map Record.name).toFinset)
        rw [List.sum_cons, List.toFinset_cons]
        have h1 : p.time + v.time + (l.map Record.time).sum =
            p.time + (v.time + (l.map Record.time).sum) := by omega
        have h2 : p.count + 1 + l.length = p.count + (l.length + 1) := by
          omega
        have h3 : insert v.name p.users ∪ (l.map Record.name).toFinset =
            p.users ∪ insert v.name (l.map Record.name).toFinset := by
          rw [Finset.insert_union, Finset.union_insert]
        rw [h1, h2, h3]
    · rw [if_neg (fun he => hp he.symm),
        List.filter_cons_of_neg (by simp [hp])]

theorem mergeStats_perm (l l2 : List Record) (h : l.Perm l2)
    (o : Option (Nat × Nat × Finset String)) :
    mergeStats o l = mergeStats o l2 := by
  have ht : (l.map Record.time).sum = (l2.map Record.time).sum :=
    (h.map Record.time).sum_eq
  have hl : l.length = l2.length := h.length_eq
  have hn : (l.map Record.name).toFinset = (l2.map Record.name).toFinset :=
    List.toFinset_eq_of_perm _ _ (h.map Record.name)
  cases o with
  | some st =>
    obtain ⟨t, c, u⟩ := st
    simp only [mergeStats, ht, hl, hn]
  | none =>
    cases l with
    | nil =>
      have h2 : l2 = [] := h.symm.eq_nil
      subst h2
      rfl
    | cons v rest =>
      cases l2 with
      | nil => exact absurd h.eq_nil (List.cons_ne_nil _ _)
      | cons w ws =>
        simp only [mergeStats]
        rw [ht, hl, hn]

/-! ### Claim theorems -/

/-- Claim C1: for every non-empty finite sequence of usage records,
`processed_data` returns a global `total_time` equal to the sum of the
`time` fields of all records and a global `total_count` equal to the
number of records. -/
theorem C1_totals (orig : List Record) (h : orig ≠ []) :
    (processed_data orig).total_time = (orig.map Record.time).sum ∧
      (processed_data orig).total_count = orig.length := by
  have ht := foldl_total_time orig initState
  have hc := foldl_total_count orig initState
  simp only [initState] at ht hc
  have ht' : (aggregate orig).total_time = (orig.map Record.time).sum := by
    simpa [aggregate] using ht
  have hc' : (aggregate orig).total_count = orig.length := by
    simpa [aggregate] using hc
  have hlen : ¬ (aggregate orig).total_count = 0 := by
    rw [hc']
    simpa [List.length_eq_zero] using h
  refine ⟨ht', ?_⟩
  show (if (aggregate orig).total_count = 0 then 1
      else (aggregate orig).total_count) = orig.length
  rw [if_neg hlen, hc']

/-- Witness for C1 at the three-record example input. -/
theorem C1_totals_witness :
    exampleRecords ≠ [] ∧
      ((processed_data exampleRecords).total_time =
          (exampleRecords.map Record.time).sum ∧
        (processed_data exampleRecords).total_count =
          exampleRecords.length) :=
  ⟨by decide, C1_totals exampleRecords (by decide)⟩

/-- Claim C2: for the empty input sequence, `processed_data` returns
`total_count` equal to 1, an empty pool mapping, `unique_users` equal to
0, and `total_time` equal to 0. -/
theorem C2_empty :
    (processed_data []).total_count = 1 ∧ (processed_data []).pools = [] ∧
      (processed_data []).unique_users = 0 ∧
      (processed_data []).total_time = 0 := by
  refine ⟨rfl, rfl, ?_, rfl⟩
  decide

/-- Claim C3: for every input sequence, the sum of the per-pool
`total_time` values equals the global `total_time`, the sum of the
per-pool `count` values equals the global count as accumulated before the
zero-floor (which itself equals the number of records, so every record
contributes to exactly one pool aggregate). -/
theorem C3_sum_invariant (orig : List Record) :
    ((processed_data orig).pools.map PoolOut.time).sum =
        (processed_data orig).total_time ∧
      ((processed_data orig).pools.map PoolOut.count).sum =
        (aggregate orig).total_count ∧
      (aggregate orig).total_count = orig.length := by
  have h1 : (processed_data orig).pools.map PoolOut.time =
      (aggregate orig).pools.map (fun kp => kp.2.time) := by
    simp [processed_data, List.map_map, Function.comp, finalizePool]
  have h2 : (processed_data orig).pools.map PoolOut.count =
      (aggregate orig).pools.map (fun kp => kp.2.count) := by
    simp [processed_data, List.map_map, Function.comp, finalizePool]
  have hc := foldl_total_count orig initState
  simp only [initState] at hc
  refine ⟨?_, ?_, by simpa [aggregate] using hc⟩
  · rw [h1]
    exact foldl_time_inv orig initState rfl
  · rw [h2]
    exact foldl_count_inv orig initState rfl

/-- Claim C4: for every input sequence and every pool id, the `name`
stored in that pool's aggregate is the `pool_name` of the first record
bearing that pool id in input order, and is never overwritten by later
records with the same pool id. -/
theorem C4_first_seen_name (orig : List Record) (pid : String) :
    (lookupPool (aggregate orig).pools pid).map PoolAcc.name =
      firstName orig pid := by
  have h := lookupName_foldl orig initState pid
  simpa [aggregate, initState, lookupPool] using h

/-- Claim C5: the pool collection is in first-seen insertion order, the
collection returned by `processed_data` is the dict's values in that
order, and the CSV renderer writes the header, then one data row per pool
in that same order, with the totals row last. -/
theorem C5_order (orig : List Record) :
    poolKeys (aggregate orig).pools = firstSeenKeys orig ∧
      (processed_data orig).pools =
        (aggregate orig).pools.map (fun kp => finalizePool kp.2) ∧
      csvGenerate orig =
        csvHeader ::
          ((processed_data orig).pools.map (fun v => csvCells (csvRowOf v))
            ++ [csvCells (csvTotals (processed_data orig))]) := by
  refine ⟨?_, rfl, rfl⟩
  have h := foldl_poolKeys orig initState
  simpa [aggregate, initState, firstSeenKeys, poolKeys] using h

/-- Claim C6: for every input sequence, each pool aggregate's
`unique_users` count is at most its record count, and the global
`unique_users` count is at most the global `total_count` as returned. -/
theorem C6_unique_bounds (orig : List Record) :
    (∀ p ∈ (processed_data orig).pools, p.users ≤ p.count) ∧
      (processed_data orig).unique_users ≤
        (processed_data orig).total_count := by
  constructor
  · intro p hp
    have hp' : p ∈ (aggregate orig).pools.map (fun kp => finalizePool kp.2) :=
      hp
    rw [List.mem_map] at hp'
    obtain ⟨kp, hkp, rfl⟩ := hp'
    exact foldl_pools_inv (fun kp => kp.2.users.card ≤ kp.2.count)
      (fun k q v hq => by
        have := Finset.card_insert_le v.name q.users
        simp only [bumpPool]
        dsimp only at hq ⊢
        omega)
      (fun v => by simp [bumpPool, zeroPool])
      orig initState (by simp [initState]) kp hkp
  · have hle := foldl_unique_le orig initState (by simp [initState])
    show (aggregate orig).unique_users.card ≤
      (if (aggregate orig).total_count = 0 then 1
        else (aggregate orig).total_count)
    by_cases h0 : (aggregate orig).total_count = 0
    · rw [if_pos h0]
      have hz : (aggregate orig).unique_users.card ≤ 0 := by
        have : (aggregate orig).unique_users.card ≤
            (aggregate orig).total_count := hle
        omega
      omega
    · rw [if_neg h0]
      exact hle

/-- Witness for C6 at the three-record example input and its first pool. -/
theorem C6_unique_bounds_witness :
    (⟨"Pool A", 150, 2, 2⟩ : PoolOut).users ≤
        (⟨"Pool A", 150, 2, 2⟩ : PoolOut).count ∧
      (processed_data exampleRecords).unique_users ≤
        (processed_data exampleRecords).total_count :=
  ⟨(C6_unique_bounds exampleRecords).1 _ (by decide),
    (C6_unique_bounds exampleRecords).2⟩

/-- Claim C7: every pool aggregate produced by `processed_data` has a
record count of at least 1 (a pool entry is only created upon seeing a
record and is immediately bumped), so the per-pool mean `time // count`
in both renderers never divides by zero. -/
theorem C7_count_pos (orig : List Record) :
    ∀ p ∈ (processed_data orig).pools, 1 ≤ p.count := by
  intro p hp
  have hp' : p ∈ (aggregate orig).pools.map (fun kp => finalizePool kp.2) :=
    hp
  rw [List.mem_map] at hp'
  obtain ⟨kp, hkp, rfl⟩ := hp'
  exact foldl_pools_inv (fun kp => 1 ≤ kp.2.count)
    (fun k q v hq => by
      simp only [bumpPool]
      dsimp only at hq ⊢
      omega)
    (fun v => by simp [bumpPool, zeroPool])
    orig initState (by simp [initState]) kp hkp

/-- Witness for C7 at the three-record example input and its first pool. -/
theorem C7_count_pos_witness :
    1 ≤ (⟨"Pool A", 150, 2, 2⟩ : PoolOut).count :=
  C7_count_pos exampleRecords _ (by decide)

/-- Claim C8: on the three-record example input, aggregation yields pool A
with time 150, count 2, users 2, pool B with time 30, count 1, users 1,
and globals total_time 180, total_count 3, unique_users 2; the PDF
per-pool mean is the truncating integer division, so pool A's mean is the
75-second duration, formatted as "0:01:15". -/
theorem C8_example :
    (processed_data exampleRecords).pools =
        [{ name := "Pool A", time := 150, count := 2, users := 2 },
          { name := "Pool B", time := 30, count := 1, users := 1 }] ∧
      (processed_data exampleRecords).total_time = 180 ∧
      (processed_data exampleRecords).total_count = 3 ∧
      (processed_data exampleRecords).unique_users = 2 ∧
      (pdfRowOf ⟨"Pool A", 150, 2, 2⟩).mean =
        (Timedelta.ofSeconds 75).render ∧
      (Timedelta.ofSeconds 75).totalSeconds = 75 ∧
      (Timedelta.ofSeconds 75).render = "0:01:15" ∧
      (pdfPayload exampleRecords).data.map PdfRow.mean =
        ["0:01:15", "0:00:30"] := by
  decide

/-- Claim C9: aggregation is invariant under permutation of the input:
the global totals and unique-user count agree, and for every pool id the
per-pool time, count and unique-user count agree; only the per-pool name
and the order of the pool collection may differ. -/
theorem C9_perm_invariant (orig orig2 : List Record)
    (h : orig.Perm orig2) :
    (processed_data orig).total_time = (processed_data orig2).total_time ∧
      (processed_data orig).total_count =
        (processed_data orig2).total_count ∧
      (processed_data orig).unique_users =
        (processed_data orig2).unique_users ∧
      ∀ pid,
        (lookupPool (aggregate orig).pools pid).map
            (fun p => (p.time, p.count, p.users.card)) =
          (lookupPool (aggregate orig2).pools pid).map
            (fun p => (p.time, p.count, p.users.card)) := by
  have htime : (aggregate orig).total_time =
      (aggregate orig2).total_time := by
    have h1 := foldl_total_time orig initState
    have h2 := foldl_total_time orig2 initState
    have hs : (orig.map Record.time).sum = (orig2.map Record.time).sum :=
      (h.map Record.time).sum_eq
    simp only [aggregate]
    omega
  have hcount : (aggregate orig).total_count =
      (aggregate orig2).total_count := by
    have h1 := foldl_total_count orig initState
    have h2 := foldl_total_count orig2 initState
    have hs : orig.length = orig2.length := h.length_eq
    simp only [aggregate]
    omega
  have husers : (aggregate orig).unique_users =
      (aggregate orig2).unique_users := by
    have h1 := foldl_unique_users orig initState
    have h2 := foldl_unique_users orig2 initState
    have hs : (orig.map Record.name).toFinset =
        (orig2.map Record.name).toFinset :=
      List.toFinset_eq_of_perm _ _ (h.map Record.name)
    show (orig.foldl stepAgg initState).unique_users =
      (orig2.foldl stepAgg initState).unique_users
    rw [h1, h2, hs]
  refine ⟨htime, ?_, ?_, ?_⟩
  · show (if (aggregate orig).total_count = 0 then 1
        else (aggregate orig).total_count) =
      (if (aggregate orig2).total_count = 0 then 1
        else (aggregate orig2).total_count)
    rw [hcount]
  · show (aggregate orig).unique_users.card =
      (aggregate orig2).unique_users.card
    rw [husers]
  · intro pid
    have e1 : (lookupPool (aggregate orig).pools pid).map poolStats =
        (lookupPool (aggregate orig2).pools pid).map poolStats := by
      have h1 := foldl_poolStats orig initState pid
      have h2 := foldl_poolStats orig2 initState pid
      have hm := mergeStats_perm _ _
        (h.filter (fun v => decide (v.pool = pid)))
        ((lookupPool initState.pools pid).map poolStats)
      exact h1.trans (hm.trans h2.symm)
    have e2 := congrArg
      (Option.map (fun st : Nat × Nat × Finset String =>
        (st.1, st.2.1, st.2.2.card))) e1
    rw [Option.map_map, Option.map_map] at e2
    exact e2

/-- Pair of permuted two-record inputs used to witness C9. -/
def permExampleA : List Record :=
  [{ pool := "A", pool_name := "Pool A", name := "u1", time := 100 },
   { pool := "B", pool_name := "Pool B", name := "u2", time := 7 }]

/-- The same two records as `permExampleA`, in the opposite order. -/
def permExampleB : List Record :=
  [{ pool := "B", pool_name := "Pool B", name := "u2", time := 7 },
   { pool := "A", pool_name := "Pool A", name := "u1", time := 100 }]

/-- Witness for C9 at a concrete transposition of a two-record input. -/
theorem C9_perm_invariant_witness :
    (processed_data permExampleA).total_time =
        (processed_data permExampleB).total_time ∧
      (processed_data permExampleA).total_count =
        (processed_data permExampleB).total_count ∧
      (processed_data permExampleA).unique_users =
        (processed_data permExampleB).unique_users ∧
      (lookupPool (aggregate permExampleA).pools "A").map
          (fun p => (p.time, p.count, p.users.card)) =
        (lookupPool (aggregate permExampleB).pools "A").map
          (fun p => (p.time, p.count, p.users.card)) :=
  have h := C9_perm_invariant permExampleA permExampleB
    (List.Perm.swap _ _ _)
  ⟨h.1, h.2.1, h.2.2.1, h.2.2.2 "A"⟩

/-- Claim C10: for every pool aggregate, the mean value written by the
CSV renderer is exactly the number of whole seconds of the mean duration
the PDF renderer formats (the same truncating division `time // count`
applied to the identical `processed_data` result). -/
theorem C10_mean_agreement (orig : List Record) :
    ∀ p ∈ (processed_data orig).pools,
      (csvRowOf p).mean =
          (Timedelta.ofSeconds (p.time / p.count)).totalSeconds ∧
        (pdfRowOf p).mean =
          (Timedelta.ofSeconds (p.time / p.count)).render := by
  intro p _
  refine ⟨?_, rfl⟩
  show p.time / p.count =
    (Timedelta.ofSeconds (p.time / p.count)).totalSeconds
  simp only [Timedelta.ofSeconds, Timedelta.totalSeconds]
  omega

/-- Witness for C10 at the three-record example input and its first
pool. -/
theorem C10_mean_agreement_witness :
    (csvRowOf (⟨"Pool A", 150, 2, 2⟩ : PoolOut)).mean =
        (Timedelta.ofSeconds (150 / 2)).totalSeconds ∧
      (pdfRowOf (⟨"Pool A", 150, 2, 2⟩ : PoolOut)).mean =
        (Timedelta.ofSeconds (150 / 2)).render :=
  C10_mean_agreement exampleRecords _ (by decide)

end PoolsUsage
